import Mathlib

/-!
Shallow embedding of the `bevy_zombie_test` simulation core
(`src/zombie_state.rs` and the cell-initialization part of `src/main.rs`).

Modelling conventions:
* Rust `i32` / `i8` values are modelled as `ℤ`; the arithmetic of the
  transition rule is modelled exactly (no wraparound: every quantity reached
  in the scenarios is far below `i32` bounds).
* Rust `/` on `i32` truncates toward zero, so it is modelled by `Int.tdiv`.
  (Lean's `/` on `ℤ` is Euclidean division, which is floor division whenever
  the divisor is positive; theorem statements that speak about `floor` use
  Lean's `/`.)
* Rust panics (`Option::unwrap` on `None`, `i32` division by zero) are
  modelled by returning `none`: `new_cell_state` has type
  `ZombieState → List ZombieState → Option ZombieState`, and a `none` result
  means the corresponding Rust call panics.
* The `warn!` diagnostic for a negative population is a side effect; the
  condition under which it fires is exposed as `negPopWarning`.
* `IVec2` is modelled as the two integer fields `x`, `y`.
-/

/-- Cell status, from `enum Status` in `src/zombie_state.rs` (lines 6-12). -/
inductive Status where
  | Empty : Status
  | Zombie : Status
  | Human : Status
deriving DecidableEq, Repr

/-- Cell state, from `struct ZombieState` in `src/zombie_state.rs`
(lines 31-41).  `xy : IVec2` is split into the fields `x` and `y`. -/
structure ZombieState where
  x : ℤ
  y : ℤ
  altitude : ℤ
  temperature : ℤ
  status : Status
  population : ℤ
  direction : ℤ
  smell_human : ℤ
  smell_zombie : ℤ
deriving DecidableEq, Repr

/-- `delta_to_direction` from `src/zombie_state.rs` (lines 280-293): maps a
coordinate delta to the direction code 0-7 (clockwise from North),
8 for "no direction", `none` (Rust `None`) for any other delta. -/
def delta_to_direction (dx dy : ℤ) : Option ℤ :=
  if dx = 0 ∧ dy = -1 then some 0
  else if dx = 1 ∧ dy = -1 then some 1
  else if dx = 1 ∧ dy = 0 then some 2
  else if dx = 1 ∧ dy = 1 then some 3
  else if dx = 0 ∧ dy = 1 then some 4
  else if dx = -1 ∧ dy = 1 then some 5
  else if dx = -1 ∧ dy = 0 then some 6
  else if dx = -1 ∧ dy = -1 then some 7
  else if dx = 0 ∧ dy = 0 then some 8
  else none

/-- The incoming-reinforcement loop of `new_cell_state`
(`src/zombie_state.rs` lines 53-67): accumulates
`(incoming_humans, incoming_zombies)` over the neighbor list.  For each
neighbor the code first unwraps `delta_to_direction(self.xy - neighbor.xy)`
(a panic — `none` — if the neighbor is not at a Moore-adjacent offset), then,
if the neighbor's `direction` equals that code, adds its population to the
counter of its faction. -/
def incomingCounts (self : ZombieState) : List ZombieState → ℤ × ℤ → Option (ℤ × ℤ)
  | [], acc => some acc
  | n :: rest, acc =>
    match delta_to_direction (self.x - n.x) (self.y - n.y) with
    | none => none
    | some d =>
      incomingCounts self rest
        (if n.direction = d then
          (if n.status = Status.Zombie then (acc.1, acc.2 + n.population)
           else if n.status = Status.Human then (acc.1 + n.population, acc.2)
           else acc)
         else acc)

/-- `total_humans` of `new_cell_state` (`src/zombie_state.rs` lines 74-79):
incoming humans plus the resident population when the cell is `Human` and
stayed (`direction == 8`). -/
def totalHumans (self : ZombieState) (nbs : List ZombieState) : Option ℤ :=
  (incomingCounts self nbs (0, 0)).map
    (fun p => p.1 + (if self.status = Status.Human ∧ self.direction = 8 then self.population else 0))

/-- `total_zombies` of `new_cell_state` (`src/zombie_state.rs` lines 81-86). -/
def totalZombies (self : ZombieState) (nbs : List ZombieState) : Option ℤ :=
  (incomingCounts self nbs (0, 0)).map
    (fun p => p.2 + (if self.status = Status.Zombie ∧ self.direction = 8 then self.population else 0))

/-- Rust's `i32::cmp` (`Ord::cmp`), used via `std::cmp::Ordering`. -/
def cmpInt (a b : ℤ) : Ordering :=
  if a < b then Ordering.lt else if a = b then Ordering.eq else Ordering.gt

/-- The zombie direction-selection comparator of `new_cell_state`
(`src/zombie_state.rs` lines 194-206): maximize `smell_human`; ties prefer
lower temperature, then lower altitude (both via `.reverse()`). -/
def cmpZombiePref (n1 n2 : ZombieState) : Ordering :=
  match cmpInt n1.smell_human n2.smell_human with
  | Ordering.eq =>
    match cmpInt n1.temperature n2.temperature with
    | Ordering.eq => (cmpInt n1.altitude n2.altitude).swap
    | o => o.swap
  | o => o

/-- The human direction-selection comparator of `new_cell_state`
(`src/zombie_state.rs` lines 214-224): the `smell_zombie` comparison is
reversed (minimize it); ties prefer higher temperature, then higher
altitude. -/
def cmpHumanPref (n1 n2 : ZombieState) : Ordering :=
  match cmpInt n1.smell_zombie n2.smell_zombie with
  | Ordering.eq =>
    match cmpInt n1.temperature n2.temperature with
    | Ordering.eq => cmpInt n1.altitude n2.altitude
    | o => o
  | o => o.swap

/-- One step of Rust's `Iterator::max_by` fold: keep the accumulator when it
compares `Greater`, otherwise take the new element (so the LAST maximal
element wins, as documented for `max_by`). -/
def maxByStep {α : Type} (c : α → α → Ordering) (x y : α) : α :=
  if c x y = Ordering.gt then x else y

/-- Rust's `Iterator::max_by`: `none` on an empty iterator, otherwise the
left fold of `maxByStep` started at the first element. -/
def maxBy {α : Type} (c : α → α → Ordering) : List α → Option α
  | [] => none
  | h :: t => some (t.foldl (maxByStep c) h)

/-- The combat-resolution `match` of `new_cell_state`
(`src/zombie_state.rs` lines 96-149), as a function of the defender status
and the two totals.  Returns the new `(status, population)`.
`Int.tdiv` is Rust's `/` on `i32`. -/
def fight (st : Status) (th tz : ℤ) : Status × ℤ :=
  match st with
  | Status.Empty =>
    if th > tz then (Status.Human, th - tz)
    else if th < tz then (Status.Zombie, tz - th)
    else (Status.Empty, 0)
  | Status.Zombie =>
    if th > tz then (Status.Human, th - tz)
    else if th < tz then (Status.Zombie, tz - th + Int.tdiv th 3)
    else (Status.Empty, 0)
  | Status.Human =>
    if th > Int.tdiv tz 3 then (Status.Human, th - Int.tdiv tz 3)
    else if th < Int.tdiv tz 3 then (Status.Zombie, tz - th * 3 + Int.tdiv th 3)
    else (Status.Empty, 0)

/-- The zero-population normalization of `new_cell_state`
(`src/zombie_state.rs` lines 151-154): a population of exactly 0 forces
`Empty`.  (Note: only `== 0`, a negative population is NOT normalized.) -/
def normalizeEmpty (sp : Status × ℤ) : Status × ℤ :=
  if sp.2 = 0 then (Status.Empty, sp.2) else sp

/-- Combat stage of `new_cell_state`: totals, `fight`, normalization
(`src/zombie_state.rs` lines 53-154). -/
def combatStatusPop (self : ZombieState) (nbs : List ZombieState) : Option (Status × ℤ) := do
  let th ← totalHumans self nbs
  let tz ← totalZombies self nbs
  pure (normalizeEmpty (fight self.status th tz))

/-- Condition of the `warn!` diagnostic in `new_cell_state`
(`src/zombie_state.rs` lines 156-160): fires when the population after
combat resolution (and normalization, which keeps the population) is
negative.  The warning is non-fatal: it does not alter the state. -/
def negPopWarning (self : ZombieState) (nbs : List ZombieState) : Option Bool :=
  (combatStatusPop self nbs).map (fun sp => decide (sp.2 < 0))

/-- Fuel-bounded binary logarithm (structurally recursive so that concrete
evaluation reduces).  `log2Aux fuel m` is `⌊log₂ m⌋` whenever `m < 2 ^ fuel`
and `1 ≤ m`. -/
def log2Aux : ℕ → ℕ → ℕ
  | 0, _ => 0
  | fuel + 1, m => if m < 2 then 0 else log2Aux fuel (m / 2) + 1

/-- Binary logarithm with 64 bits of fuel: exact for every `m < 2 ^ 64`,
which covers every value the model feeds it (populations are `i32`, so the
significand products below stay under `2 ^ 55`). -/
def nblog2 (m : ℕ) : ℕ := log2Aux 64 m

/-- Round `m / 2 ^ d` to the nearest integer, ties to even — the IEEE-754
default rounding used by Rust's `f32` arithmetic. -/
def roundHE (m d : ℕ) : ℕ :=
  if d = 0 then m
  else if 2 ^ (d - 1) < m % 2 ^ d then m / 2 ^ d + 1
  else if m % 2 ^ d < 2 ^ (d - 1) then m / 2 ^ d
  else if (m / 2 ^ d) % 2 = 0 then m / 2 ^ d
  else m / 2 ^ d + 1

/-- Round the integer `m` to an `f32`-representable integer: keep 24
significand bits, round to nearest, ties to even.  (Rounding to 24
significand bits is scale invariant, so the same function also rounds the
numerator of any dyadic rational.) -/
def f32roundNat (m : ℕ) : ℕ :=
  if m < 2 ^ 24 then m
  else roundHE m (nblog2 m - 23) * 2 ^ (nblog2 m - 23)

/-- Significand of the `f32` nearest to `1.01` (the birth-rate factor in
`src/zombie_state.rs` line 165): `1.01 ≈ 8472494 / 2 ^ 23`. -/
def ampSig : ℕ := 8472494

/-- `CpalSample::mul_amp(·, 1.01)` on a non-negative `i32`, modelled exactly
(cpal converts through `f32` using the dasp conversions
`i32 → f32 : s as f32 / 2^31` and `f32 → i32 : (s * 2^31) as f32-to-int
cast`).  The powers of two only shift exponents, so the computation is:
round the integer to 24 significand bits, multiply by the `f32` value of
`1.01` (`ampSig / 2^23`), round again to 24 significand bits, then truncate
toward zero and saturate at `i32::MAX`. -/
def mulAmpNat (n : ℕ) : ℕ :=
  min (f32roundNat (f32roundNat n * ampSig) / 2 ^ 23) (2 ^ 31 - 1)

/-- `new_state.population.mul_amp(1.01)` from `src/zombie_state.rs`
line 165, for any `i32` population (negative values mirror the positive
computation; the saturating cast clamps at the `i32` bounds). -/
def mulAmp (p : ℤ) : ℤ :=
  if 0 ≤ p then (mulAmpNat p.toNat : ℤ)
  else - ((min (f32roundNat (f32roundNat p.natAbs * ampSig) / 2 ^ 23) (2 ^ 31) : ℕ) : ℤ)

/-- Scent-diffusion stage of `new_cell_state` (`src/zombie_state.rs`
lines 169-183): each smell field becomes the truncating average of the
neighbors' fields plus the cell's own (previous-tick) population if its
(previous-tick) status matches the faction.  Rust `i32` division by zero
panics, so an empty neighbor list yields `none`. -/
def smellAfter (self : ZombieState) (nbs : List ZombieState) : Option (ℤ × ℤ) :=
  if nbs.length = 0 then none
  else
    some (Int.tdiv ((nbs.map (fun n => n.smell_human)).sum) nbs.length
            + (if self.status = Status.Human then self.population else 0),
          Int.tdiv ((nbs.map (fun n => n.smell_zombie)).sum) nbs.length
            + (if self.status = Status.Zombie then self.population else 0))

/-- Direction-selection stage of `new_cell_state` (`src/zombie_state.rs`
lines 186-246), as a function of the post-combat status `st`, the
post-growth population `pop` and the new `smell_zombie` value `sz`.
Zombies unconditionally head for the preferred (max `smell_human`)
neighbor; humans head for the preferred (min `smell_zombie`) neighbor only
if strong enough to attack or if it is a safer non-zombie cell; `Empty`
cells keep direction 8. -/
def directionAfter (self : ZombieState) (nbs : List ZombieState) (st : Status) (pop sz : ℤ) :
    Option ℤ :=
  match st with
  | Status.Empty => some 8
  | Status.Zombie =>
    match maxBy cmpZombiePref nbs with
    | none => none
    | some pref => delta_to_direction (pref.x - self.x) (pref.y - self.y)
  | Status.Human =>
    match maxBy cmpHumanPref nbs with
    | none => none
    | some pref =>
      if Int.tdiv pop 3 > (if pref.status = Status.Zombie then pref.population else 0)
          ∨ (¬ pref.status = Status.Zombie ∧ pref.smell_zombie < sz) then
        delta_to_direction (pref.x - self.x) (pref.y - self.y)
      else some 8

/-- `ZombieState::new_cell_state` (`src/zombie_state.rs` lines 44-258):
combat resolution (with normalization), 1% growth for humans, scent
diffusion, then direction selection.  The result keeps the cell's
position, altitude and temperature.  `none` models a Rust panic. -/
def new_cell_state (self : ZombieState) (nbs : List ZombieState) : Option ZombieState := do
  let sp ← combatStatusPop self nbs
  let sm ← smellAfter self nbs
  let dir ← directionAfter self nbs sp.1
    (if sp.1 = Status.Human then mulAmp sp.2 else sp.2) sm.2
  pure { self with
         status := sp.1,
         population := if sp.1 = Status.Human then mulAmp sp.2 else sp.2,
         smell_human := sm.1, smell_zombie := sm.2, direction := dir }

/-- `impl From<Vec<i32>> for ZombieState` (`src/zombie_state.rs`
lines 261-278).  Rust indexing panics when the vector is shorter than 9
entries (`none`); `vec[6] as i8` wraps into `[-128, 128)`, which is exactly
`Int.bmod · 256`. -/
def zombieStateFromVec (v : List ℤ) : Option ZombieState :=
  if 9 ≤ v.length then
    some { x := v.getD 0 0, y := v.getD 1 0,
           altitude := v.getD 2 0, temperature := v.getD 3 0,
           status := if v.getD 4 0 = 1 then Status.Zombie
                     else if v.getD 4 0 = 2 then Status.Human
                     else Status.Empty,
           population := v.getD 5 0,
           direction := Int.bmod (v.getD 6 0) 256,
           smell_human := v.getD 7 0, smell_zombie := v.getD 8 0 }
  else none

/-- The per-cell initialization vector built by `setup_map` in
`src/main.rs` (lines 58-79): `vec![0; 9]` with indices 0-5 assigned
(coordinates, terrain, randomized status and population) and indices 6-8
(direction and both smells) left at 0.  `r1` and `r2` are the two `u8`
draws of `rand::random::<u8>()`. -/
def setupCellVec (x y alt temp : ℤ) (r1 r2 : ℕ) : List ℤ :=
  [x, y, alt, temp,
   if r1 % 4 = 1 then 1 else if r1 % 4 = 2 then 2 else 0,
   if (if r1 % 4 = 1 then (1 : ℤ) else if r1 % 4 = 2 then 2 else 0) = 2
     then ((r2 % 100 : ℕ) : ℤ) + 50
   else if (if r1 % 4 = 1 then (1 : ℤ) else if r1 % 4 = 2 then 2 else 0) = 1
     then ((r2 % 10 : ℕ) : ℤ) + 1
   else 0,
   0, 0, 0]

/-! ## Helper lemmas -/

/-- On non-negative operands Rust's truncating division agrees with Lean's
Euclidean (= floor, for a positive divisor) division. -/
theorem tdiv_eq_ediv_of_nonneg (a b : ℤ) (ha : 0 ≤ a) (hb : 0 ≤ b) : Int.tdiv a b = a / b := by
  obtain ⟨m, rfl⟩ := Int.eq_ofNat_of_zero_le ha
  obtain ⟨n, rfl⟩ := Int.eq_ofNat_of_zero_le hb
  rfl

theorem cmpInt_eq_lt_iff (a b : ℤ) : cmpInt a b = Ordering.lt ↔ a < b := by
  unfold cmpInt
  split_ifs <;> simp_all <;> omega

theorem cmpInt_eq_gt_iff (a b : ℤ) : cmpInt a b = Ordering.gt ↔ b < a := by
  unfold cmpInt
  split_ifs <;> simp_all <;> omega

theorem cmpInt_eq_eq_iff (a b : ℤ) : cmpInt a b = Ordering.eq ↔ a = b := by
  unfold cmpInt
  split_ifs <;> simp_all <;> omega

/-- Characterization of when the human comparator strictly prefers `a`
over `b`: strictly smaller zombie smell, or equal smell and strictly
warmer, or equal smell and temperature and strictly higher. -/
theorem cmpHumanPref_gt_iff (a b : ZombieState) :
    cmpHumanPref a b = Ordering.gt ↔
      (a.smell_zombie < b.smell_zombie ∨
        (a.smell_zombie = b.smell_zombie ∧
          (b.temperature < a.temperature ∨
            (b.temperature = a.temperature ∧ b.altitude < a.altitude)))) := by
  unfold cmpHumanPref cmpInt
  split_ifs <;> simp_all [Ordering.swap] <;> omega

theorem cmpHumanPref_refl (a : ZombieState) : cmpHumanPref a a ≠ Ordering.gt := by
  rw [Ne, cmpHumanPref_gt_iff]
  omega

theorem cmpHumanPref_asym (a b : ZombieState) (h : cmpHumanPref a b = Ordering.gt) :
    cmpHumanPref b a ≠ Ordering.gt := by
  rw [cmpHumanPref_gt_iff] at h
  rw [Ne, cmpHumanPref_gt_iff]
  omega

theorem cmpHumanPref_trans_neg (a b d : ZombieState)
    (h1 : cmpHumanPref a b ≠ Ordering.gt) (h2 : cmpHumanPref b d ≠ Ordering.gt) :
    cmpHumanPref a d ≠ Ordering.gt := by
  rw [Ne, cmpHumanPref_gt_iff] at h1 h2 ⊢
  omega

theorem foldl_maxByStep_mem {α : Type} (c : α → α → Ordering) :
    ∀ (l : List α) (a : α), l.foldl (maxByStep c) a = a ∨ l.foldl (maxByStep c) a ∈ l
  | [], _ => Or.inl rfl
  | y :: t, a => by
    simp only [List.foldl_cons]
    have hstep : maxByStep c a y = a ∨ maxByStep c a y = y := by
      unfold maxByStep
      split
      · exact Or.inl rfl
      · exact Or.inr rfl
    rcases foldl_maxByStep_mem c t (maxByStep c a y) with h | h
    · rcases hstep with h2 | h2
      · left
        rw [h, h2]
      · right
        rw [h, h2]
        exact List.mem_cons_self y t
    · right
      exact List.mem_cons_of_mem y h

/-- Rust's `max_by` returns an element of the list. -/
theorem maxBy_mem {α : Type} (c : α → α → Ordering) (l : List α) (m : α)
    (h : maxBy c l = some m) : m ∈ l := by
  match l with
  | [] => cases h
  | a :: t =>
    unfold maxBy at h
    have h2 := Option.some.inj h
    rcases foldl_maxByStep_mem c t a with h3 | h3
    · rw [h2] at h3
      rw [h3]
      exact List.mem_cons_self a t
    · rw [h2] at h3
      exact List.mem_cons_of_mem a h3

/-- The fold underlying `max_by` yields a maximal element: no element of
the list (nor the seed) compares `Greater` against it, provided the
comparator is irreflexive-on-`gt`, asymmetric and negatively transitive
(all true for lexicographic comparators). -/
theorem foldl_maxByStep_spec {α : Type} (c : α → α → Ordering)
    (hrefl : ∀ a, c a a ≠ Ordering.gt)
    (hasym : ∀ a b, c a b = Ordering.gt → c b a ≠ Ordering.gt)
    (htrans : ∀ a b d, c a b ≠ Ordering.gt → c b d ≠ Ordering.gt → c a d ≠ Ordering.gt) :
    ∀ (l : List α) (a : α),
      c a (l.foldl (maxByStep c) a) ≠ Ordering.gt ∧
        ∀ x ∈ l, c x (l.foldl (maxByStep c) a) ≠ Ordering.gt
  | [], a => ⟨hrefl a, by intro x hx; cases hx⟩
  | y :: t, a => by
    simp only [List.foldl_cons]
    by_cases h1 : c a y = Ordering.gt
    · have hstep : maxByStep c a y = a := by
        unfold maxByStep
        rw [if_pos h1]
      rw [hstep]
      obtain ⟨hm1, hm2⟩ := foldl_maxByStep_spec c hrefl hasym htrans t a
      refine ⟨hm1, ?_⟩
      intro x hx
      rcases List.mem_cons.mp hx with rfl | hx2
      · exact htrans x a _ (hasym a x h1) hm1
      · exact hm2 x hx2
    · have hstep : maxByStep c a y = y := by
        unfold maxByStep
        rw [if_neg h1]
      rw [hstep]
      obtain ⟨hm1, hm2⟩ := foldl_maxByStep_spec c hrefl hasym htrans t y
      refine ⟨htrans a y _ h1 hm1, ?_⟩
      intro x hx
      rcases List.mem_cons.mp hx with rfl | hx2
      · exact hm1
      · exact hm2 x hx2

/-- `max_by` with the human comparator yields an element no other element
strictly beats. -/
theorem maxBy_cmpHumanPref_spec (l : List ZombieState) (m : ZombieState)
    (h : maxBy cmpHumanPref l = some m) :
    ∀ x ∈ l, cmpHumanPref x m ≠ Ordering.gt := by
  match l with
  | [] => cases h
  | a :: t =>
    unfold maxBy at h
    have h2 := Option.some.inj h
    obtain ⟨hm1, hm2⟩ :=
      foldl_maxByStep_spec cmpHumanPref cmpHumanPref_refl cmpHumanPref_asym
        cmpHumanPref_trans_neg t a
    rw [h2] at hm1 hm2
    intro x hx
    rcases List.mem_cons.mp hx with rfl | hx2
    · exact hm1
    · exact hm2 x hx2

/-- The incoming-reinforcement fold, in closed form: starting from any
accumulator it adds, per faction, the populations of exactly those
neighbors whose status matches and whose `direction` is the code of the
delta pointing from the neighbor to `self`. -/
theorem incomingCounts_eq (self : ZombieState) :
    ∀ (l : List ZombieState) (acc res : ℤ × ℤ),
      incomingCounts self l acc = some res →
      res.1 = acc.1 + ((l.map (fun n =>
          if n.status = Status.Human ∧
              delta_to_direction (self.x - n.x) (self.y - n.y) = some n.direction
          then n.population else 0)).sum) ∧
      res.2 = acc.2 + ((l.map (fun n =>
          if n.status = Status.Zombie ∧
              delta_to_direction (self.x - n.x) (self.y - n.y) = some n.direction
          then n.population else 0)).sum)
  | [], acc, res => by
    intro h
    unfold incomingCounts at h
    have h2 := Option.some.inj h
    rw [← h2]
    simp
  | n :: t, acc, res => by
    intro h
    unfold incomingCounts at h
    cases hd : delta_to_direction (self.x - n.x) (self.y - n.y) with
    | none =>
      rw [hd] at h
      cases h
    | some d =>
      rw [hd] at h
      have ih := incomingCounts_eq self t _ res h
      simp only [List.map_cons, List.sum_cons, hd]
      by_cases hdir : n.direction = d
      · cases hst : n.status with
        | Empty =>
          simp [hst, hdir] at ih ⊢
          omega
        | Zombie =>
          simp [hst, hdir] at ih ⊢
          omega
        | Human =>
          simp [hst, hdir] at ih ⊢
          omega
      · have hdir2 : ¬ d = n.direction := fun hc => hdir hc.symm
        simp [hdir, hdir2] at ih ⊢
        omega

/-- When every neighbor population is non-negative, both incoming totals
are at least their seeds. -/
theorem incomingCounts_nonneg (self : ZombieState) (l : List ZombieState) (res : ℤ × ℤ)
    (hpop : ∀ n ∈ l, 0 ≤ n.population)
    (h : incomingCounts self l (0, 0) = some res) : 0 ≤ res.1 ∧ 0 ≤ res.2 := by
  obtain ⟨h1, h2⟩ := incomingCounts_eq self l (0, 0) res h
  constructor
  · rw [h1]
    have : 0 ≤ ((l.map (fun n =>
        if n.status = Status.Human ∧
            delta_to_direction (self.x - n.x) (self.y - n.y) = some n.direction
        then n.population else 0)).sum) := by
      apply List.sum_nonneg
      intro x hx
      obtain ⟨n, hn, rfl⟩ := List.mem_map.mp hx
      split_ifs
      · exact hpop n hn
      · exact le_refl 0
    omega
  · rw [h2]
    have : 0 ≤ ((l.map (fun n =>
        if n.status = Status.Zombie ∧
            delta_to_direction (self.x - n.x) (self.y - n.y) = some n.direction
        then n.population else 0)).sum) := by
      apply List.sum_nonneg
      intro x hx
      obtain ⟨n, hn, rfl⟩ := List.mem_map.mp hx
      split_ifs
      · exact hpop n hn
      · exact le_refl 0
    omega

/-- If every neighbor sits at a Moore-adjacent offset, the incoming fold
does not panic. -/
theorem incomingCounts_total (self : ZombieState) :
    ∀ (l : List ZombieState) (acc : ℤ × ℤ),
      (∀ n ∈ l, (delta_to_direction (self.x - n.x) (self.y - n.y)).isSome) →
      ∃ res, incomingCounts self l acc = some res
  | [], acc => fun _ => ⟨acc, rfl⟩
  | n :: t, acc => by
    intro hl
    have hsome := hl n (List.mem_cons_self n t)
    unfold incomingCounts
    cases hd : delta_to_direction (self.x - n.x) (self.y - n.y) with
    | none =>
      rw [hd] at hsome
      cases hsome
    | some d =>
      exact incomingCounts_total self t _ (fun m hm => hl m (List.mem_cons_of_mem n hm))

/-- Neighbors that are all `Empty` (at adjacent offsets) contribute
nothing: the fold returns its seed. -/
theorem incomingCounts_all_empty (self : ZombieState) :
    ∀ (l : List ZombieState) (acc : ℤ × ℤ),
      (∀ n ∈ l, n.status = Status.Empty ∧
        (delta_to_direction (self.x - n.x) (self.y - n.y)).isSome) →
      incomingCounts self l acc = some acc
  | [], _ => fun _ => rfl
  | n :: t, acc => by
    intro hl
    obtain ⟨hst, hsome⟩ := hl n (List.mem_cons_self n t)
    unfold incomingCounts
    cases hd : delta_to_direction (self.x - n.x) (self.y - n.y) with
    | none =>
      rw [hd] at hsome
      cases hsome
    | some d =>
      have hrec := incomingCounts_all_empty self t acc
        (fun m hm => hl m (List.mem_cons_of_mem n hm))
      rw [hst]
      simpa using hrec

/-- The direction table is closed under delta negation. -/
theorem delta_to_direction_neg (dx dy : ℤ) (h : (delta_to_direction dx dy).isSome) :
    (delta_to_direction (-dx) (-dy)).isSome := by
  unfold delta_to_direction at h
  split_ifs at h with h1 h2 h3 h4 h5 h6 h7 h8 h9
  · obtain ⟨rfl, rfl⟩ := h1
    decide
  · obtain ⟨rfl, rfl⟩ := h2
    decide
  · obtain ⟨rfl, rfl⟩ := h3
    decide
  · obtain ⟨rfl, rfl⟩ := h4
    decide
  · obtain ⟨rfl, rfl⟩ := h5
    decide
  · obtain ⟨rfl, rfl⟩ := h6
    decide
  · obtain ⟨rfl, rfl⟩ := h7
    decide
  · obtain ⟨rfl, rfl⟩ := h8
    decide
  · obtain ⟨rfl, rfl⟩ := h9
    decide
  · cases h

/-- Only the zero delta maps to direction code 8. -/
theorem delta_to_direction_eq_eight (dx dy : ℤ) (h : delta_to_direction dx dy = some 8) :
    dx = 0 ∧ dy = 0 := by
  unfold delta_to_direction at h
  split_ifs at h <;> simp_all

/-- Whenever `fight` outputs the `Empty` status, the output population is
zero (all three `Equal` branches). -/
theorem fight_empty_pop_zero (st : Status) (th tz : ℤ)
    (h : (fight st th tz).1 = Status.Empty) : (fight st th tz).2 = 0 := by
  cases st <;> unfold fight at h ⊢ <;> split_ifs at h ⊢ <;> simp_all

/-- With non-negative totals, the post-combat population is non-negative,
and it is zero exactly when the post-combat status is `Empty`. -/
theorem fight_nonneg_and_zero_iff (st : Status) (th tz : ℤ) (hth : 0 ≤ th) (htz : 0 ≤ tz) :
    0 ≤ (fight st th tz).2 ∧ ((fight st th tz).2 = 0 ↔ (fight st th tz).1 = Status.Empty) := by
  have e1 : Int.tdiv th 3 = th / 3 := tdiv_eq_ediv_of_nonneg th 3 hth (by norm_num)
  have e2 : Int.tdiv tz 3 = tz / 3 := tdiv_eq_ediv_of_nonneg tz 3 htz (by norm_num)
  cases st <;> unfold fight <;> rw [e1, e2] <;> split_ifs <;> simp_all <;> omega

/-- `normalizeEmpty` keeps the population and forces `Empty` exactly on a
zero population (given that `fight` already pairs `Empty` with zero). -/
theorem normalizeEmpty_fight_spec (st : Status) (th tz : ℤ) :
    (normalizeEmpty (fight st th tz)).2 = (fight st th tz).2 ∧
      ((normalizeEmpty (fight st th tz)).1 = Status.Empty ↔ (fight st th tz).2 = 0) := by
  unfold normalizeEmpty
  split_ifs with h
  · simp [h]
  · refine ⟨rfl, ?_⟩
    simp only [h, iff_false]
    intro hc
    exact h (fight_empty_pop_zero st th tz hc)

theorem log2Aux_le (fuel : ℕ) : ∀ m : ℕ, 1 ≤ m → 2 ^ log2Aux fuel m ≤ m := by
  induction fuel with
  | zero =>
    intro m hm
    simpa [log2Aux] using hm
  | succ fuel ih =>
    intro m hm
    unfold log2Aux
    split_ifs with h
    · simpa using hm
    · have h2 : 1 ≤ m / 2 := by omega
      have h3 := ih (m / 2) h2
      have h4 : 2 ^ (log2Aux fuel (m / 2) + 1) = 2 * 2 ^ log2Aux fuel (m / 2) := by
        rw [pow_succ]
        ring
      omega

theorem roundHE_ge (m d : ℕ) : m / 2 ^ d ≤ roundHE m d := by
  unfold roundHE
  split_ifs <;> simp_all <;> omega

theorem f32roundNat_ge_pow23 (m : ℕ) (h : 2 ^ 23 ≤ m) : 2 ^ 23 ≤ f32roundNat m := by
  unfold f32roundNat
  split_ifs with h24
  · exact h
  · by_cases hb : nblog2 m ≤ 23
    · have hd : nblog2 m - 23 = 0 := by omega
      rw [hd]
      have h0 : roundHE m 0 = m := by
        unfold roundHE
        simp
      rw [h0]
      simpa using h
    · push_neg at hb
      have hle : 2 ^ nblog2 m ≤ m := log2Aux_le 64 m (by omega)
      have hdle : nblog2 m - 23 ≤ nblog2 m := Nat.sub_le _ _
      have h1 : 2 ^ nblog2 m / 2 ^ (nblog2 m - 23) = 2 ^ 23 := by
        rw [Nat.pow_div hdle (by norm_num)]
        congr 1
        omega
      have h2 : 2 ^ 23 ≤ m / 2 ^ (nblog2 m - 23) := by
        rw [← h1]
        exact Nat.div_le_div_right hle
      have h3 := roundHE_ge m (nblog2 m - 23)
      have h4 : 0 < 2 ^ (nblog2 m - 23) := Nat.pos_pow_of_pos _ (by norm_num)
      have h5 : roundHE m (nblog2 m - 23) ≤ roundHE m (nblog2 m - 23) * 2 ^ (nblog2 m - 23) :=
        Nat.le_mul_of_pos_right _ h4
      omega

theorem f32roundNat_pos (m : ℕ) (h : 1 ≤ m) : 1 ≤ f32roundNat m := by
  by_cases h24 : m < 2 ^ 24
  · unfold f32roundNat
    rw [if_pos h24]
    exact h
  · have h1 : (2 : ℕ) ^ 23 ≤ m := by
      have : (2 : ℕ) ^ 23 ≤ 2 ^ 24 := by norm_num
      omega
    have h2 := f32roundNat_ge_pow23 m h1
    have : (1 : ℕ) ≤ 2 ^ 23 := Nat.one_le_two_pow
    omega

/-- The modelled `mul_amp(·, 1.01)` maps a positive count to a positive
count (1% growth never wipes out a human population). -/
theorem mulAmpNat_pos (n : ℕ) (h : 1 ≤ n) : 1 ≤ mulAmpNat n := by
  unfold mulAmpNat
  have h1 : 1 ≤ f32roundNat n := f32roundNat_pos n h
  have h2 : 2 ^ 23 ≤ f32roundNat n * ampSig := by
    have ha : (2 : ℕ) ^ 23 ≤ ampSig := by
      unfold ampSig
      norm_num
    calc (2 : ℕ) ^ 23 ≤ ampSig := ha
      _ = 1 * ampSig := (one_mul _).symm
      _ ≤ f32roundNat n * ampSig := Nat.mul_le_mul_right _ h1
  have h3 : 2 ^ 23 ≤ f32roundNat (f32roundNat n * ampSig) := f32roundNat_ge_pow23 _ h2
  have h4 : 1 ≤ f32roundNat (f32roundNat n * ampSig) / 2 ^ 23 :=
    (Nat.one_le_div_iff (Nat.pos_pow_of_pos _ (by norm_num))).mpr h3
  have h5 : (1 : ℕ) ≤ 2 ^ 31 - 1 := by norm_num
  omega

theorem mulAmp_pos (p : ℤ) (h : 1 ≤ p) : 1 ≤ mulAmp p := by
  unfold mulAmp
  rw [if_pos (by omega : (0 : ℤ) ≤ p)]
  have h1 := mulAmpNat_pos p.toNat (by omega)
  omega

/-- Decomposition of the combat stage. -/
theorem combatStatusPop_decomp (self : ZombieState) (nbs : List ZombieState) (sp : Status × ℤ)
    (h : combatStatusPop self nbs = some sp) :
    ∃ th tz, totalHumans self nbs = some th ∧ totalZombies self nbs = some tz ∧
      sp = normalizeEmpty (fight self.status th tz) := by
  unfold combatStatusPop at h
  cases hth : totalHumans self nbs with
  | none =>
    rw [hth] at h
    cases h
  | some th =>
    rw [hth] at h
    cases htz : totalZombies self nbs with
    | none =>
      rw [htz] at h
      cases h
    | some tz =>
      rw [htz] at h
      simp only [Option.bind_eq_bind, Option.some_bind, Option.pure_def, Option.some.injEq] at h
      exact ⟨th, tz, rfl, rfl, h.symm⟩

/-- Decomposition of `new_cell_state` into its four stages. -/
theorem new_cell_state_decomp (self : ZombieState) (nbs : List ZombieState) (out : ZombieState)
    (h : new_cell_state self nbs = some out) :
    ∃ sp sm dir, combatStatusPop self nbs = some sp ∧ smellAfter self nbs = some sm ∧
      directionAfter self nbs sp.1 (if sp.1 = Status.Human then mulAmp sp.2 else sp.2) sm.2
        = some dir ∧
      out = { self with
              status := sp.1,
              population := if sp.1 = Status.Human then mulAmp sp.2 else sp.2,
              smell_human := sm.1, smell_zombie := sm.2, direction := dir } := by
  unfold new_cell_state at h
  cases hsp : combatStatusPop self nbs with
  | none =>
    rw [hsp] at h
    cases h
  | some sp =>
    rw [hsp] at h
    simp only [Option.bind_eq_bind, Option.some_bind] at h
    cases hsm : smellAfter self nbs with
    | none =>
      rw [hsm] at h
      simp at h
    | some sm =>
      rw [hsm] at h
      simp only [Option.some_bind] at h
      cases hdir : directionAfter self nbs sp.1
          (if sp.1 = Status.Human then mulAmp sp.2 else sp.2) sm.2 with
      | none =>
        rw [hdir] at h
        simp at h
      | some dir =>
        rw [hdir] at h
        simp only [Option.some_bind, Option.pure_def, Option.some.injEq] at h
        exact ⟨sp, sm, dir, rfl, rfl, hdir, h.symm⟩

/-! ## Concrete cells for scenarios and witnesses -/

/-- Scenario C cell: `Human`, population 10, `direction = 8`. -/
def cellC1 : ZombieState :=
  { x := 0, y := 0, altitude := 0, temperature := 0, status := Status.Human,
    population := 10, direction := 8, smell_human := 0, smell_zombie := 0 }

/-- A zombie neighbor of `cellC1` sending its 40 zombies into it
(direction 0 = North = the delta from `(0,1)` to `(0,0)`). -/
def nbC1 : ZombieState :=
  { x := 0, y := 1, altitude := 0, temperature := 0, status := Status.Zombie,
    population := 40, direction := 0, smell_human := 0, smell_zombie := 0 }

def w2self : ZombieState :=
  { x := 0, y := 0, altitude := 0, temperature := 0, status := Status.Human,
    population := 7, direction := 8, smell_human := 0, smell_zombie := 0 }

def w2nb1 : ZombieState :=
  { x := 1, y := 1, altitude := 0, temperature := 0, status := Status.Zombie,
    population := 5, direction := 7, smell_human := 0, smell_zombie := 0 }

def w2nb2 : ZombieState :=
  { x := 0, y := 1, altitude := 0, temperature := 0, status := Status.Human,
    population := 4, direction := 4, smell_human := 0, smell_zombie := 0 }

def w5self : ZombieState :=
  { x := 0, y := 0, altitude := 0, temperature := 0, status := Status.Human,
    population := 4, direction := 8, smell_human := 0, smell_zombie := 0 }

/-- Three neighbors, as for a corner cell. -/
def w5nbs : List ZombieState :=
  [{ x := 1, y := 0, altitude := 0, temperature := 0, status := Status.Empty,
     population := 0, direction := 2, smell_human := 5, smell_zombie := 1 },
   { x := 0, y := 1, altitude := 0, temperature := 0, status := Status.Empty,
     population := 0, direction := 2, smell_human := 6, smell_zombie := 2 },
   { x := 1, y := 1, altitude := 0, temperature := 0, status := Status.Empty,
     population := 0, direction := 2, smell_human := 8, smell_zombie := 3 }]

def w5out : ZombieState :=
  { x := 0, y := 0, altitude := 0, temperature := 0, status := Status.Human,
    population := 4, direction := 2, smell_human := 10, smell_zombie := 2 }

/-! ## Claim theorems -/

/-- C1: for a `Human` defender the transition compares `total_humans` with
`floor(total_zombies / 3)`: strictly greater keeps `Human` with population
`total_humans - floor(total_zombies/3)`; strictly less flips to `Zombie`
with population `total_zombies - total_humans*3 + floor(total_humans/3)`;
equal yields `Empty` with population 0.  In particular a `Human` cell with
population 10 and direction 8 receiving 40 incoming zombies has totals
(10, 40) and flips to `Zombie` with population 13 at the combat-resolution
step (before growth and diffusion). -/
theorem C1_human_combat (th tz : ℤ) (hth : 0 ≤ th) (htz : 0 ≤ tz) :
    ((tz / 3 < th → fight Status.Human th tz = (Status.Human, th - tz / 3)) ∧
      (th < tz / 3 → fight Status.Human th tz = (Status.Zombie, tz - th * 3 + th / 3)) ∧
      (th = tz / 3 → fight Status.Human th tz = (Status.Empty, 0))) ∧
    (totalHumans cellC1 [nbC1] = some 10 ∧ totalZombies cellC1 [nbC1] = some 40 ∧
      fight Status.Human 10 40 = (Status.Zombie, 13)) := by
  have e1 : Int.tdiv th 3 = th / 3 := tdiv_eq_ediv_of_nonneg th 3 hth (by norm_num)
  have e2 : Int.tdiv tz 3 = tz / 3 := tdiv_eq_ediv_of_nonneg tz 3 htz (by norm_num)
  refine ⟨⟨?_, ?_, ?_⟩, by decide, by decide, by decide⟩
  · intro hgt
    simp only [fight, e1, e2]
    rw [if_pos (by omega)]
  · intro hlt
    simp only [fight, e1, e2]
    rw [if_neg (by omega), if_pos (by omega)]
  · intro heq
    simp only [fight, e1, e2]
    rw [if_neg (by omega), if_neg (by omega)]

theorem C1_witness :
    (0 : ℤ) ≤ 10 ∧ (0 : ℤ) ≤ 40 ∧ (10 : ℤ) < 40 / 3 ∧
      fight Status.Human 10 40 = (Status.Zombie, 13) := by
  refine ⟨by norm_num, by norm_num, by norm_num, ?_⟩
  have h := (C1_human_combat 10 40 (by norm_num) (by norm_num)).1.2.1 (by norm_num)
  norm_num at h
  exact h

/-- C2: `total_humans` is exactly the sum of the populations of the
neighbors whose status is `Human` and whose `direction` is the code of the
delta pointing from that neighbor to the cell, plus the cell's own
population exactly when the cell is `Human` with `direction = 8`;
symmetrically for `total_zombies`.  Neighbors not pointing at the cell,
and a resident whose direction is not 8, contribute nothing. -/
theorem C2_totals (self : ZombieState) (nbs : List ZombieState) (th tz : ℤ)
    (hth : totalHumans self nbs = some th) (htz : totalZombies self nbs = some tz) :
    th = ((nbs.map (fun n =>
        if n.status = Status.Human ∧
            delta_to_direction (self.x - n.x) (self.y - n.y) = some n.direction
        then n.population else 0)).sum)
      + (if self.status = Status.Human ∧ self.direction = 8 then self.population else 0) ∧
    tz = ((nbs.map (fun n =>
        if n.status = Status.Zombie ∧
            delta_to_direction (self.x - n.x) (self.y - n.y) = some n.direction
        then n.population else 0)).sum)
      + (if self.status = Status.Zombie ∧ self.direction = 8 then self.population else 0) := by
  unfold totalHumans at hth
  unfold totalZombies at htz
  cases hic : incomingCounts self nbs (0, 0) with
  | none =>
    rw [hic] at hth
    cases hth
  | some res =>
    rw [hic] at hth htz
    simp only [Option.map_some', Option.some.injEq] at hth htz
    obtain ⟨h1, h2⟩ := incomingCounts_eq self nbs (0, 0) res hic
    constructor
    · rw [← hth, h1]
      omega
    · rw [← htz, h2]
      omega

theorem C2_witness :
    totalHumans w2self [w2nb1, w2nb2] = some 7 ∧
    totalZombies w2self [w2nb1, w2nb2] = some 5 ∧
    (7 : ℤ) = (([w2nb1, w2nb2].map (fun n =>
        if n.status = Status.Human ∧
            delta_to_direction (w2self.x - n.x) (w2self.y - n.y) = some n.direction
        then n.population else 0)).sum)
      + (if w2self.status = Status.Human ∧ w2self.direction = 8
         then w2self.population else 0) := by
  refine ⟨by decide, by decide, ?_⟩
  exact (C2_totals w2self [w2nb1, w2nb2] 7 5 (by decide) (by decide)).1

/-- C3: for a `Zombie` defender: more humans than zombies flips to `Human`
with the difference as population; fewer keeps `Zombie` with population
`total_zombies - total_humans + floor(total_humans/3)`; equal totals yield
`Empty` with population 0.  In particular 20 total humans against 5 total
zombies flips the cell to `Human` with population 15 at combat
resolution. -/
theorem C3_zombie_combat (th tz : ℤ) (hth : 0 ≤ th) (htz : 0 ≤ tz) :
    ((tz < th → fight Status.Zombie th tz = (Status.Human, th - tz)) ∧
      (th < tz → fight Status.Zombie th tz = (Status.Zombie, tz - th + th / 3)) ∧
      (th = tz → fight Status.Zombie th tz = (Status.Empty, 0))) ∧
    fight Status.Zombie 20 5 = (Status.Human, 15) := by
  have e1 : Int.tdiv th 3 = th / 3 := tdiv_eq_ediv_of_nonneg th 3 hth (by norm_num)
  refine ⟨⟨?_, ?_, ?_⟩, by decide⟩
  · intro hgt
    simp only [fight, e1]
    rw [if_pos (by omega)]
  · intro hlt
    simp only [fight, e1]
    rw [if_neg (by omega), if_pos (by omega)]
  · intro heq
    simp only [fight, e1]
    rw [if_neg (by omega), if_neg (by omega)]

theorem C3_witness :
    (0 : ℤ) ≤ 20 ∧ (0 : ℤ) ≤ 5 ∧ (5 : ℤ) < 20 ∧
      fight Status.Zombie 20 5 = (Status.Human, 15) := by
  refine ⟨by norm_num, by norm_num, by norm_num, ?_⟩
  have h := (C3_zombie_combat 20 5 (by norm_num) (by norm_num)).1.1 (by norm_num)
  norm_num at h
  exact h

/-- C5: with at least one neighbor, the new `smell_human` is the floor of
the average of the neighbors' `smell_human` over the ACTUAL neighbor count
plus the cell's previous-tick population if its previous status is
`Human`; symmetrically for `smell_zombie`. -/
theorem C5_smell (self : ZombieState) (nbs : List ZombieState) (out : ZombieState)
    (hne : nbs ≠ [])
    (hsm : ∀ n ∈ nbs, 0 ≤ n.smell_human ∧ 0 ≤ n.smell_zombie)
    (h : new_cell_state self nbs = some out) :
    out.smell_human = ((nbs.map (fun n => n.smell_human)).sum) / (nbs.length : ℤ)
        + (if self.status = Status.Human then self.population else 0) ∧
    out.smell_zombie = ((nbs.map (fun n => n.smell_zombie)).sum) / (nbs.length : ℤ)
        + (if self.status = Status.Zombie then self.population else 0) := by
  obtain ⟨sp, sm, dir, hsp, hsmell, hdir, hout⟩ := new_cell_state_decomp self nbs out h
  unfold smellAfter at hsmell
  rw [if_neg (fun hc => hne (List.length_eq_zero.mp hc))] at hsmell
  have hsum_h : 0 ≤ (nbs.map (fun n => n.smell_human)).sum := by
    apply List.sum_nonneg
    intro x hx
    obtain ⟨n, hn, rfl⟩ := List.mem_map.mp hx
    exact (hsm n hn).1
  have hsum_z : 0 ≤ (nbs.map (fun n => n.smell_zombie)).sum := by
    apply List.sum_nonneg
    intro x hx
    obtain ⟨n, hn, rfl⟩ := List.mem_map.mp hx
    exact (hsm n hn).2
  have hlen : (0 : ℤ) ≤ (nbs.length : ℤ) := by exact_mod_cast Nat.zero_le _
  have e1 := tdiv_eq_ediv_of_nonneg ((nbs.map (fun n => n.smell_human)).sum)
    (nbs.length : ℤ) hsum_h hlen
  have e2 := tdiv_eq_ediv_of_nonneg ((nbs.map (fun n => n.smell_zombie)).sum)
    (nbs.length : ℤ) hsum_z hlen
  have hsm2 := Option.some.inj hsmell
  rw [hout, ← hsm2]
  constructor
  · simp only []
    rw [e1]
  · simp only []
    rw [e2]

theorem C5_witness :
    w5nbs ≠ [] ∧ new_cell_state w5self w5nbs = some w5out ∧
    w5out.smell_human
      = ((w5nbs.map (fun n => n.smell_human)).sum) / (w5nbs.length : ℤ)
        + (if w5self.status = Status.Human then w5self.population else 0) ∧
    w5out.smell_zombie
      = ((w5nbs.map (fun n => n.smell_zombie)).sum) / (w5nbs.length : ℤ)
        + (if w5self.status = Status.Zombie then w5self.population else 0) := by
  refine ⟨by decide, by decide, ?_⟩
  exact C5_smell w5self w5nbs w5out (by decide) (by decide) (by decide)

def w6self : ZombieState :=
  { x := 0, y := 0, altitude := 0, temperature := 0, status := Status.Zombie,
    population := 3, direction := 8, smell_human := 0, smell_zombie := 0 }

def w6nb : ZombieState :=
  { x := 0, y := 1, altitude := 0, temperature := 0, status := Status.Human,
    population := 9, direction := 0, smell_human := 0, smell_zombie := 0 }

def w6out : ZombieState :=
  { x := 0, y := 0, altitude := 0, temperature := 0, status := Status.Human,
    population := 6, direction := 4, smell_human := 0, smell_zombie := 3 }

/-- C6: when every input population is non-negative and the invariant
`population == 0 ⇔ status == Empty` holds for the cell and its neighbors,
any output the transition produces satisfies the invariant again. -/
theorem C6_invariant (self : ZombieState) (nbs : List ZombieState) (out : ZombieState)
    (hpop_self : 0 ≤ self.population)
    (hpop_nbs : ∀ n ∈ nbs, 0 ≤ n.population)
    (hinv_self : self.population = 0 ↔ self.status = Status.Empty)
    (hinv_nbs : ∀ n ∈ nbs, n.population = 0 ↔ n.status = Status.Empty)
    (h : new_cell_state self nbs = some out) :
    out.population = 0 ↔ out.status = Status.Empty := by
  obtain ⟨sp, sm, dir, hsp, hsmell, hdir, hout⟩ := new_cell_state_decomp self nbs out h
  obtain ⟨th, tz, hth, htz, hspval⟩ := combatStatusPop_decomp self nbs sp hsp
  unfold totalHumans at hth
  unfold totalZombies at htz
  cases hic : incomingCounts self nbs (0, 0) with
  | none =>
    rw [hic] at hth
    cases hth
  | some res =>
    rw [hic] at hth htz
    simp only [Option.map_some', Option.some.injEq] at hth htz
    obtain ⟨hr1, hr2⟩ := incomingCounts_nonneg self nbs res hpop_nbs hic
    have hth0 : 0 ≤ th := by
      rw [← hth]
      split_ifs <;> omega
    have htz0 : 0 ≤ tz := by
      rw [← htz]
      split_ifs <;> omega
    obtain ⟨hfnn, hfiff⟩ := fight_nonneg_and_zero_iff self.status th tz hth0 htz0
    obtain ⟨hnp, hniff⟩ := normalizeEmpty_fight_spec self.status th tz
    rw [hout]
    simp only []
    rw [hspval]
    by_cases hhum : (normalizeEmpty (fight self.status th tz)).1 = Status.Human
    · rw [if_pos hhum]
      have hnEmp : ¬ (normalizeEmpty (fight self.status th tz)).1 = Status.Empty := by
        rw [hhum]
        intro hc
        cases hc
      have hfz : ¬ (fight self.status th tz).2 = 0 := fun hc => hnEmp (hniff.mpr hc)
      have hge1 : 1 ≤ (normalizeEmpty (fight self.status th tz)).2 := by
        rw [hnp]
        omega
      have hma := mulAmp_pos _ hge1
      constructor
      · intro hc
        omega
      · intro hc
        exact absurd hc hnEmp
    · rw [if_neg hhum, hnp, hniff]

theorem C6_witness :
    new_cell_state w6self [w6nb] = some w6out ∧
      (w6out.population = 0 ↔ w6out.status = Status.Empty) := by
  refine ⟨by decide, ?_⟩
  exact C6_invariant w6self [w6nb] w6out (by decide) (by decide) (by decide)
    (by decide) (by decide)

def w4self : ZombieState :=
  { x := 0, y := 0, altitude := 0, temperature := 0, status := Status.Human,
    population := 12, direction := 8, smell_human := 0, smell_zombie := 0 }

def w4nb : ZombieState :=
  { x := 0, y := 1, altitude := 0, temperature := 0, status := Status.Empty,
    population := 0, direction := 4, smell_human := 0, smell_zombie := 0 }

def w4out : ZombieState :=
  { x := 0, y := 0, altitude := 0, temperature := 0, status := Status.Human,
    population := 12, direction := 4, smell_human := 12, smell_zombie := 0 }

/-- C4: when the post-combat status is `Human` the transition picks the
neighbor minimizing `smell_zombie` (ties: higher temperature, then higher
altitude) and sets the direction toward it exactly when
`floor(new population / 3)` exceeds that neighbor's zombie population
(0 if it is not `Zombie`-held), or the neighbor is not `Zombie`-held and
its `smell_zombie` is strictly below the cell's new `smell_zombie`;
otherwise the direction stays 8. -/
theorem C4_human_direction (self : ZombieState) (nbs : List ZombieState) (out : ZombieState)
    (h : new_cell_state self nbs = some out)
    (hst : out.status = Status.Human)
    (hpop : 0 ≤ out.population) :
    ∃ pref, pref ∈ nbs ∧
      (∀ n ∈ nbs, pref.smell_zombie < n.smell_zombie ∨
        (pref.smell_zombie = n.smell_zombie ∧
          (n.temperature < pref.temperature ∨
            (n.temperature = pref.temperature ∧ n.altitude ≤ pref.altitude)))) ∧
      ((out.population / 3 > (if pref.status = Status.Zombie then pref.population else 0)
          ∨ (¬ pref.status = Status.Zombie ∧ pref.smell_zombie < out.smell_zombie)) →
        delta_to_direction (pref.x - self.x) (pref.y - self.y) = some out.direction) ∧
      (¬ (out.population / 3 > (if pref.status = Status.Zombie then pref.population else 0)
          ∨ (¬ pref.status = Status.Zombie ∧ pref.smell_zombie < out.smell_zombie)) →
        out.direction = 8) := by
  obtain ⟨sp, sm, dir, hsp, hsmell, hdir, hout⟩ := new_cell_state_decomp self nbs out h
  have hsp1 : sp.1 = Status.Human := by
    rw [hout] at hst
    exact hst
  have hpope : out.population = mulAmp sp.2 := by
    rw [hout]
    simp only []
    rw [hsp1]
    rfl
  have hsze : out.smell_zombie = sm.2 := by
    rw [hout]
  have hdire : out.direction = dir := by
    rw [hout]
  rw [hsp1] at hdir
  simp only [directionAfter] at hdir
  cases hmb : maxBy cmpHumanPref nbs with
  | none =>
    rw [hmb] at hdir
    simp at hdir
  | some pref =>
    rw [hmb] at hdir
    dsimp only [] at hdir
    simp only [if_true] at hdir
    have e1 : Int.tdiv out.population 3 = out.population / 3 :=
      tdiv_eq_ediv_of_nonneg out.population 3 hpop (by norm_num)
    have e2 : Int.tdiv (mulAmp sp.2) 3 = out.population / 3 := by
      rw [← e1, hpope]
    have hopt : ∀ n ∈ nbs, pref.smell_zombie < n.smell_zombie ∨
        (pref.smell_zombie = n.smell_zombie ∧
          (n.temperature < pref.temperature ∨
            (n.temperature = pref.temperature ∧ n.altitude ≤ pref.altitude))) := by
      intro n hn
      have h2 := maxBy_cmpHumanPref_spec nbs pref hmb n hn
      rw [Ne, cmpHumanPref_gt_iff] at h2
      omega
    refine ⟨pref, maxBy_mem cmpHumanPref nbs pref hmb, hopt, ?_, ?_⟩
    · intro hcl
      by_cases hc : Int.tdiv (mulAmp sp.2) 3
            > (if pref.status = Status.Zombie then pref.population else 0)
          ∨ (¬ pref.status = Status.Zombie ∧ pref.smell_zombie < sm.2)
      · rw [if_pos hc] at hdir
        rw [hdire]
        exact hdir
      · exfalso
        apply hc
        rcases hcl with h1 | h2
        · left
          rw [e2]
          exact h1
        · right
          refine ⟨h2.1, ?_⟩
          rw [← hsze]
          exact h2.2
    · intro hncl
      by_cases hc : Int.tdiv (mulAmp sp.2) 3
            > (if pref.status = Status.Zombie then pref.population else 0)
          ∨ (¬ pref.status = Status.Zombie ∧ pref.smell_zombie < sm.2)
      · exfalso
        apply hncl
        rcases hc with h1 | h2
        · left
          rw [← e2]
          exact h1
        · right
          refine ⟨h2.1, ?_⟩
          rw [hsze]
          exact h2.2
      · rw [if_neg hc] at hdir
        rw [hdire]
        exact (Option.some.inj hdir).symm

theorem C4_witness :
    new_cell_state w4self [w4nb] = some w4out ∧
      (∃ pref, pref ∈ [w4nb] ∧
        (∀ n ∈ [w4nb], pref.smell_zombie < n.smell_zombie ∨
          (pref.smell_zombie = n.smell_zombie ∧
            (n.temperature < pref.temperature ∨
              (n.temperature = pref.temperature ∧ n.altitude ≤ pref.altitude)))) ∧
        ((w4out.population / 3 > (if pref.status = Status.Zombie then pref.population else 0)
            ∨ (¬ pref.status = Status.Zombie ∧ pref.smell_zombie < w4out.smell_zombie)) →
          delta_to_direction (pref.x - w4self.x) (pref.y - w4self.y) = some w4out.direction) ∧
        (¬ (w4out.population / 3 > (if pref.status = Status.Zombie then pref.population else 0)
            ∨ (¬ pref.status = Status.Zombie ∧ pref.smell_zombie < w4out.smell_zombie)) →
          w4out.direction = 8)) := by
  refine ⟨by decide, ?_⟩
  exact C4_human_direction w4self [w4nb] w4out (by decide) (by decide) (by decide)

/-- Scenario A cell: isolated `Human`, population 100, `direction = 8`. -/
def cellC7 : ZombieState :=
  { x := 0, y := 0, altitude := 0, temperature := 0, status := Status.Human,
    population := 100, direction := 8, smell_human := 0, smell_zombie := 0 }

def c7nb1 : ZombieState :=
  { x := 0, y := 1, altitude := 0, temperature := 0, status := Status.Empty,
    population := 0, direction := 4, smell_human := 0, smell_zombie := 0 }

def c7nb2 : ZombieState :=
  { x := 1, y := 0, altitude := 0, temperature := 0, status := Status.Empty,
    population := 0, direction := 2, smell_human := 0, smell_zombie := 0 }

def c7nb3 : ZombieState :=
  { x := 1, y := 1, altitude := 0, temperature := 0, status := Status.Empty,
    population := 0, direction := 3, smell_human := 0, smell_zombie := 0 }

def c7out : ZombieState :=
  { x := 0, y := 0, altitude := 0, temperature := 0, status := Status.Human,
    population := 101, direction := 3, smell_human := 100, smell_zombie := 0 }

/-- C7 counterexample: the isolated `Human` cell of Scenario A (population
100, direction 8, all neighbors `Empty` with zero smell and no direction
pointing at it) stays `Human` and grows to 101, but its new direction is 3
(toward the preferred neighbor), NOT 8: `floor(101/3) = 33` exceeds the
preferred (Empty) neighbor's zombie population 0, so the human moves. -/
theorem C7_counterexample :
    new_cell_state cellC7 [c7nb1, c7nb2, c7nb3] = some c7out ∧
      c7out.status = Status.Human ∧ c7out.population = 101 ∧
      c7out.direction = 3 ∧ ¬ c7out.direction = 8 := by
  decide

/-- C7 amended: an isolated `Human` cell with population 100 and direction
8, all of whose neighbors are `Empty` with zero smell fields and no
direction pointing at it, stays `Human` with population 101 (1% growth
with floor rounding), but its direction is set TOWARD the preferred
neighbor — it does not stay 8 — because `floor(101/3) = 33` exceeds the
preferred neighbor's zombie population of 0. -/
theorem C7_amended (nbs : List ZombieState) (hne : nbs ≠ [])
    (hnb : ∀ n ∈ nbs, n.status = Status.Empty ∧ n.population = 0 ∧
      n.smell_human = 0 ∧ n.smell_zombie = 0 ∧
      (delta_to_direction (cellC7.x - n.x) (cellC7.y - n.y)).isSome ∧
      ¬ delta_to_direction (cellC7.x - n.x) (cellC7.y - n.y) = some n.direction ∧
      ¬ (n.x = cellC7.x ∧ n.y = cellC7.y)) :
    ∃ out pref, new_cell_state cellC7 nbs = some out ∧
      out.status = Status.Human ∧ out.population = 101 ∧
      pref ∈ nbs ∧
      delta_to_direction (pref.x - cellC7.x) (pref.y - cellC7.y) = some out.direction ∧
      ¬ out.direction = 8 := by
  have hic : incomingCounts cellC7 nbs (0, 0) = some (0, 0) :=
    incomingCounts_all_empty cellC7 nbs (0, 0)
      (fun n hn => ⟨(hnb n hn).1, (hnb n hn).2.2.2.2.1⟩)
  have hth : totalHumans cellC7 nbs = some 100 := by
    unfold totalHumans
    rw [hic]
    rfl
  have htz : totalZombies cellC7 nbs = some 0 := by
    unfold totalZombies
    rw [hic]
    rfl
  have hsp : combatStatusPop cellC7 nbs = some (Status.Human, 100) := by
    unfold combatStatusPop
    rw [hth, htz]
    rfl
  have hsum1 : (nbs.map (fun n => n.smell_human)).sum = 0 := by
    apply List.sum_eq_zero
    intro x hx
    obtain ⟨n, hn, rfl⟩ := List.mem_map.mp hx
    exact (hnb n hn).2.2.1
  have hsum2 : (nbs.map (fun n => n.smell_zombie)).sum = 0 := by
    apply List.sum_eq_zero
    intro x hx
    obtain ⟨n, hn, rfl⟩ := List.mem_map.mp hx
    exact (hnb n hn).2.2.2.1
  have hsm : smellAfter cellC7 nbs = some (100, 0) := by
    unfold smellAfter
    rw [if_neg (fun hc => hne (List.length_eq_zero.mp hc))]
    rw [hsum1, hsum2]
    simp [cellC7, Int.zero_tdiv]
  obtain ⟨pref, hmb⟩ : ∃ pref, maxBy cmpHumanPref nbs = some pref := by
    cases nbs with
    | nil => exact absurd rfl hne
    | cons a t => exact ⟨_, rfl⟩
  have hprefmem := maxBy_mem cmpHumanPref nbs pref hmb
  obtain ⟨hpst, hppop, hpsh, hpsz, hpsome, hpnotpt, hpnotself⟩ := hnb pref hprefmem
  have hds : (delta_to_direction (pref.x - cellC7.x) (pref.y - cellC7.y)).isSome := by
    have h2 := delta_to_direction_neg _ _ hpsome
    rw [neg_sub, neg_sub] at h2
    exact h2
  obtain ⟨d, hd⟩ := Option.isSome_iff_exists.mp hds
  have hcond : Int.tdiv (mulAmp 100) 3
        > (if pref.status = Status.Zombie then pref.population else 0)
      ∨ (¬ pref.status = Status.Zombie ∧ pref.smell_zombie < 0) := by
    left
    rw [if_neg (by rw [hpst]; intro hc; cases hc)]
    decide
  have hdira : directionAfter cellC7 nbs Status.Human (mulAmp 100) 0 = some d := by
    simp only [directionAfter]
    rw [hmb]
    dsimp only []
    rw [if_pos hcond]
    exact hd
  have hout : new_cell_state cellC7 nbs
      = some { x := 0, y := 0, altitude := 0, temperature := 0, status := Status.Human,
               population := mulAmp 100, direction := d, smell_human := 100,
               smell_zombie := 0 } := by
    unfold new_cell_state
    rw [hsp]
    simp only [Option.bind_eq_bind, Option.some_bind]
    rw [hsm]
    simp only [Option.some_bind]
    simp only [eq_self_iff_true, if_true]
    rw [hdira]
    rfl
  refine ⟨_, pref, hout, rfl, (by decide : mulAmp (100 : ℤ) = 101), hprefmem, hd, ?_⟩
  intro hc
  have hc2 : d = 8 := hc
  rw [hc2] at hd
  obtain ⟨hz1, hz2⟩ := delta_to_direction_eq_eight _ _ hd
  apply hpnotself
  constructor
  · omega
  · omega

theorem C7_witness :
    ∃ out pref, new_cell_state cellC7 [c7nb1, c7nb2, c7nb3] = some out ∧
      out.status = Status.Human ∧ out.population = 101 ∧
      pref ∈ [c7nb1, c7nb2, c7nb3] ∧
      delta_to_direction (pref.x - cellC7.x) (pref.y - cellC7.y) = some out.direction ∧
      ¬ out.direction = 8 :=
  C7_amended [c7nb1, c7nb2, c7nb3] (by decide) (by decide)

def c8self : ZombieState :=
  { x := 0, y := 0, altitude := 0, temperature := 0, status := Status.Zombie,
    population := 7, direction := 0, smell_human := 0, smell_zombie := 0 }

/-- Invariant-violating zombie neighbor with a negative population,
pointing at `c8self`. -/
def c8nbz : ZombieState :=
  { x := 0, y := 1, altitude := 0, temperature := 0, status := Status.Zombie,
    population := -29, direction := 0, smell_human := 0, smell_zombie := 0 }

/-- Invariant-violating human neighbor with a negative population,
pointing at `c8self`. -/
def c8nbh : ZombieState :=
  { x := 1, y := 0, altitude := 0, temperature := 0, status := Status.Human,
    population := -30, direction := 6, smell_human := 0, smell_zombie := 0 }

def c8out : ZombieState :=
  { x := 0, y := 0, altitude := 0, temperature := 0, status := Status.Zombie,
    population := -9, direction := 2, smell_human := 0, smell_zombie := 7 }

/-- C8 counterexample: with (invariant-violating) totals `(-30, -29)` the
combat resolution produces population `-9`; the diagnostic fires and the
transition completes, but the cell is NOT normalized to `Empty`: it keeps
status `Zombie` with the negative population `-9`.  The claim's "normalized
to Empty whenever its resulting population is ≤ 0" is false. -/
theorem C8_counterexample :
    new_cell_state c8self [c8nbz, c8nbh] = some c8out ∧
      negPopWarning c8self [c8nbz, c8nbh] = some true ∧
      c8out.population < 0 ∧ ¬ c8out.status = Status.Empty := by
  decide

/-- C8 amended: for every cell with a non-empty, Moore-adjacent neighbor
snapshot, the transition completes (no crash) whatever the sign of the
combat population; the negative-population diagnostic fires exactly when
the combat population is negative; and the cell is normalized to `Empty`
exactly when the combat population is 0 — a negative population keeps its
combat status instead of being forced to `Empty`. -/
theorem C8_amended (self : ZombieState) (nbs : List ZombieState)
    (hadj : ∀ n ∈ nbs, (delta_to_direction (self.x - n.x) (self.y - n.y)).isSome)
    (hne : nbs ≠ []) :
    ∃ out sp, new_cell_state self nbs = some out ∧
      combatStatusPop self nbs = some sp ∧
      negPopWarning self nbs = some (decide (sp.2 < 0)) ∧
      (sp.1 = Status.Empty ↔ sp.2 = 0) ∧
      out.status = sp.1 ∧
      out.population = (if sp.1 = Status.Human then mulAmp sp.2 else sp.2) := by
  obtain ⟨res, hic⟩ := incomingCounts_total self nbs (0, 0) hadj
  obtain ⟨th, hth⟩ : ∃ th, totalHumans self nbs = some th := by
    unfold totalHumans
    rw [hic, Option.map_some']
    exact ⟨_, rfl⟩
  obtain ⟨tz, htz⟩ : ∃ tz, totalZombies self nbs = some tz := by
    unfold totalZombies
    rw [hic, Option.map_some']
    exact ⟨_, rfl⟩
  have hsp : combatStatusPop self nbs = some (normalizeEmpty (fight self.status th tz)) := by
    unfold combatStatusPop
    rw [hth, htz]
    rfl
  have hw : negPopWarning self nbs
      = some (decide ((normalizeEmpty (fight self.status th tz)).2 < 0)) := by
    unfold negPopWarning
    rw [hsp, Option.map_some']
  obtain ⟨hnp, hniff⟩ := normalizeEmpty_fight_spec self.status th tz
  obtain ⟨sm, hsm⟩ : ∃ sm, smellAfter self nbs = some sm := by
    unfold smellAfter
    rw [if_neg (fun hc => hne (List.length_eq_zero.mp hc))]
    exact ⟨_, rfl⟩
  have hdira : ∀ st pop sz, ∃ dird, directionAfter self nbs st pop sz = some dird := by
    intro st pop sz
    cases st with
    | Empty => exact ⟨8, rfl⟩
    | Zombie =>
      obtain ⟨prefz, hmb⟩ : ∃ p, maxBy cmpZombiePref nbs = some p := by
        cases nbs with
        | nil => exact absurd rfl hne
        | cons a t => exact ⟨_, rfl⟩
      have hmem := maxBy_mem cmpZombiePref nbs prefz hmb
      have hds : (delta_to_direction (prefz.x - self.x) (prefz.y - self.y)).isSome := by
        have h2 := delta_to_direction_neg _ _ (hadj prefz hmem)
        rw [neg_sub, neg_sub] at h2
        exact h2
      obtain ⟨dz, hdz⟩ := Option.isSome_iff_exists.mp hds
      refine ⟨dz, ?_⟩
      simp only [directionAfter, hmb]
      exact hdz
    | Human =>
      obtain ⟨prefh, hmb⟩ : ∃ p, maxBy cmpHumanPref nbs = some p := by
        cases nbs with
        | nil => exact absurd rfl hne
        | cons a t => exact ⟨_, rfl⟩
      have hmem := maxBy_mem cmpHumanPref nbs prefh hmb
      have hds : (delta_to_direction (prefh.x - self.x) (prefh.y - self.y)).isSome := by
        have h2 := delta_to_direction_neg _ _ (hadj prefh hmem)
        rw [neg_sub, neg_sub] at h2
        exact h2
      obtain ⟨dh, hdh⟩ := Option.isSome_iff_exists.mp hds
      by_cases hcnd : Int.tdiv pop 3
            > (if prefh.status = Status.Zombie then prefh.population else 0)
          ∨ (¬ prefh.status = Status.Zombie ∧ prefh.smell_zombie < sz)
      · refine ⟨dh, ?_⟩
        simp only [directionAfter, hmb]
        rw [if_pos hcnd]
        exact hdh
      · refine ⟨8, ?_⟩
        simp only [directionAfter, hmb]
        rw [if_neg hcnd]
  obtain ⟨dird, hdird⟩ := hdira (normalizeEmpty (fight self.status th tz)).1
    (if (normalizeEmpty (fight self.status th tz)).1 = Status.Human
     then mulAmp (normalizeEmpty (fight self.status th tz)).2
     else (normalizeEmpty (fight self.status th tz)).2) sm.2
  have hout : new_cell_state self nbs
      = some { self with
               status := (normalizeEmpty (fight self.status th tz)).1,
               population := if (normalizeEmpty (fight self.status th tz)).1 = Status.Human
                 then mulAmp (normalizeEmpty (fight self.status th tz)).2
                 else (normalizeEmpty (fight self.status th tz)).2,
               smell_human := sm.1, smell_zombie := sm.2, direction := dird } := by
    unfold new_cell_state
    rw [hsp]
    simp only [Option.bind_eq_bind, Option.some_bind]
    rw [hsm]
    simp only [Option.some_bind]
    rw [hdird]
    rfl
  refine ⟨_, _, hout, hsp, hw, ?_, rfl, rfl⟩
  rw [← hnp] at hniff
  exact hniff

theorem C8_witness :
    ∃ out sp, new_cell_state c8self [c8nbz, c8nbh] = some out ∧
      combatStatusPop c8self [c8nbz, c8nbh] = some sp ∧
      negPopWarning c8self [c8nbz, c8nbh] = some (decide (sp.2 < 0)) ∧
      (sp.1 = Status.Empty ↔ sp.2 = 0) ∧
      out.status = sp.1 ∧
      out.population = (if sp.1 = Status.Human then mulAmp sp.2 else sp.2) :=
  C8_amended c8self [c8nbz, c8nbh] (by decide) (by decide)

def c9cell : ZombieState :=
  { x := 0, y := 0, altitude := 0, temperature := 0, status := Status.Empty,
    population := 0, direction := 8, smell_human := 0, smell_zombie := 0 }

/-- C9 counterexample: evaluated with zero neighbors, combat resolution
completes, but the scent-averaging stage is reached with divisor 0 and the
transition fails (Rust's `i32` division by zero panics; modelled as
`none`).  There is no explicit guard. -/
theorem C9_counterexample :
    combatStatusPop c9cell [] = some (Status.Empty, 0) ∧
      smellAfter c9cell [] = none ∧
      new_cell_state c9cell [] = none := by
  decide

/-- C9 amended: for every cell, the zero-neighbor evaluation passes combat
resolution and then reaches the scent-averaging division with divisor 0:
the transition is undefined there (Rust panics, modelled as `none`) — the
zero-neighbor case is unsupported, but NOT explicitly guarded before the
division. -/
theorem C9_no_guard (c : ZombieState) :
    (combatStatusPop c []).isSome = true ∧
      smellAfter c [] = none ∧
      new_cell_state c [] = none :=
  ⟨rfl, rfl, rfl⟩

/-- A cell whose last-tick direction is not 8 contributes no resident
population to either total. -/
theorem totals_no_self_defense (st : ZombieState) (hd : ¬ st.direction = 8)
    (nbs : List ZombieState) (h z : ℤ)
    (hic : incomingCounts st nbs (0, 0) = some (h, z)) :
    totalHumans st nbs = some h ∧ totalZombies st nbs = some z := by
  constructor
  · unfold totalHumans
    rw [hic, Option.map_some', if_neg (fun hc => hd hc.2), add_zero]
  · unfold totalZombies
    rw [hic, Option.map_some', if_neg (fun hc => hd hc.2), add_zero]

/-- C10: every cell built by `setup_map` (any coordinates, terrain values
and random draws) has direction 0 — the code for North, not 8 — and both
smell fields 0; consequently its resident population never counts toward
defending its own cell in the totals computation of the first tick. -/
theorem C10_init (x y alt temp : ℤ) (r1 r2 : ℕ) :
    ∃ st, zombieStateFromVec (setupCellVec x y alt temp r1 r2) = some st ∧
      st.direction = 0 ∧ st.smell_human = 0 ∧ st.smell_zombie = 0 ∧
      delta_to_direction 0 (-1) = some 0 ∧
      ∀ (nbs : List ZombieState) (h z : ℤ),
        incomingCounts st nbs (0, 0) = some (h, z) →
        totalHumans st nbs = some h ∧ totalZombies st nbs = some z := by
  have hlen : 9 ≤ (setupCellVec x y alt temp r1 r2).length := by
    unfold setupCellVec
    simp
  have hd6 : (setupCellVec x y alt temp r1 r2).getD 6 0 = 0 := by
    unfold setupCellVec
    rfl
  have hd7 : (setupCellVec x y alt temp r1 r2).getD 7 0 = 0 := by
    unfold setupCellVec
    rfl
  have hd8 : (setupCellVec x y alt temp r1 r2).getD 8 0 = 0 := by
    unfold setupCellVec
    rfl
  unfold zombieStateFromVec
  rw [if_pos hlen]
  have hdir0 : Int.bmod ((setupCellVec x y alt temp r1 r2).getD 6 0) 256 = 0 := by
    rw [hd6]
    decide
  refine ⟨_, rfl, hdir0, hd7, hd8, by decide, ?_⟩
  intro nbs h z hic
  refine totals_no_self_defense _ ?_ nbs h z hic
  rw [hdir0]
  intro hc
  simp at hc

theorem C10_witness :
    ∃ st, zombieStateFromVec (setupCellVec 0 0 1 2 2 7) = some st ∧
      st.direction = 0 ∧ totalHumans st [] = some 0 ∧ totalZombies st [] = some 0 := by
  obtain ⟨st, h1, h2, h3, h4, h5, h6⟩ := C10_init 0 0 1 2 2 7
  obtain ⟨h7, h8⟩ := h6 [] 0 0 rfl
  exact ⟨st, h1, h2, h7, h8⟩
